import Mathlib

/-!
Verification of `rust_src/src/decompress.rs` (remacs): the region
decompressor `zlib_decompress_region` and its helper
`create_buffer_decoder`.

Shallow embedding conventions:

* The Emacs text container is a `Buffer`: a list of bytes (`text`),
  the point (`pt`, an Emacs character position, 1-based, ranging over
  `1 .. text.length + 1`), and the multibyte flag.  In a unibyte
  buffer character positions and byte positions coincide, exactly the
  situation the Rust code relies on (`// byte, char offsets the same`).
* Gap-buffer mechanics (`move_gap_both`, `make_gap`, `gap_size`,
  `insert_from_gap`) only affect how storage is arranged, not the
  abstract content; an `insert_from_gap` of a chunk written at the gap
  (which sits at position `iend + bytes-inserted-so-far`) is modelled
  as `insertAt` at that position, and `del_range_2` as `deleteRange`.
* The flate2 decoder is external to the repository.  Its `read` calls
  are modelled by a `DecodeScript`: each `chunk c` is an `Ok(n)` read
  returning the bytes `c` (`Ok(0)`, i.e. a `chunk` of length zero, is
  clean end of stream, matching the Rust `match`), `eof` is an `Ok(0)`
  read, and `err` is an `Err` read.
* Change notifications and composition updates are recorded as an
  `Event` trace: `modify_text` (which runs the pre-change hooks),
  `signal_after_change`, and `update_compositions`.  `del_range_2`
  and `insert_from_gap` run no change hooks, so they log nothing.
* `error!` (a Lisp `signal`) aborts the call; it is modelled by the
  `Except.error` outcome carried in `DecompressResult.outcome`, with
  the buffer state at the moment of the signal.
-/

namespace Remacs

/-- The Emacs buffer as the decompressor sees it: byte content, point
(1-based character position), and the multibyte flag.  `zv`, the end
position of the buffer, is `text.length + 1`. -/
structure Buffer where
  text : List Nat
  pt : Nat
  multibyte : Bool
deriving Repr, DecidableEq

/-- Observable notification events, in emission order:
`modifyText start stop` is `modify_text(istart, iend)` (runs the
pre-change hooks), `afterChange charpos del ins` is
`signal_after_change(charpos, del, ins)`, and
`updateCompositions start stop` is
`update_compositions(start, stop, CHECK_HEAD)`. -/
inductive Event where
  | modifyText : Nat → Nat → Event
  | afterChange : Nat → Nat → Nat → Event
  | updateCompositions : Nat → Nat → Event
deriving Repr, DecidableEq

/-- The three decoder variants of `create_buffer_decoder`. -/
inductive DecoderKind where
  | zlibStream : DecoderKind
  | gzipStream : DecoderKind
  | rawDeflateStream : DecoderKind
deriving Repr, DecidableEq

/-- `create_buffer_decoder`: inspects `buffer[0]` and picks the
decoder.  Indexing an empty slice panics in Rust; that is the `none`
result. -/
def create_buffer_decoder (buffer : List Nat) : Option DecoderKind :=
  match buffer with
  | [] => none
  | magic_number :: _ =>
    if magic_number = 0x78 then some DecoderKind.zlibStream
    else if magic_number = 0x1F then some DecoderKind.gzipStream
    else some DecoderKind.rawDeflateStream

/-- The sequence of results the flate2 decoder's `read` calls return:
`chunk c rest` is `Ok(c.length)` with bytes `c` written to the gap,
`eof` is `Ok(0)`, `err` is `Err(_)`. -/
inductive DecodeScript where
  | eof : DecodeScript
  | err : DecodeScript
  | chunk : List Nat → DecodeScript → DecodeScript
deriving Repr, DecidableEq

/-- The bytes the script produces before clean end of stream:
`some B` if the reads yield `B` then `Ok(0)`, `none` if they end in an
error.  A zero-length `chunk` is an `Ok(0)` read and therefore a clean
end of stream. -/
def scriptOutput : DecodeScript → Option (List Nat)
  | DecodeScript.eof => some []
  | DecodeScript.err => none
  | DecodeScript.chunk c rest =>
    if c = [] then some [] else (scriptOutput rest).map (fun b => c ++ b)

/-- `insert_from_gap` of bytes `c` with the gap at position `pos`
(1-based): content grows by `c` in front of the byte at `pos`. -/
def insertAt (text : List Nat) (pos : Nat) (c : List Nat) : List Nat :=
  text.take (pos - 1) ++ c ++ text.drop (pos - 1)

/-- `del_range_2(dfrom, dto)`: deletes the bytes at positions
`[dfrom, dto)` (1-based), running no change hooks. -/
def deleteRange (text : List Nat) (dfrom dto : Nat) : List Nat :=
  text.take (dfrom - 1) ++ text.drop (dto - 1)

/-- Point relocation performed by `del_range_2` when deleting
`[dfrom, dto)`: point is shifted like a marker (Emacs `insdel.c`:
`if (from < PT) adjust_point (from - min (PT, to), ...)`). -/
def ptAfterDelete (pt dfrom dto : Nat) : Nat :=
  if dto ≤ pt then pt - (dto - dfrom)
  else if dfrom ≤ pt then dfrom
  else pt

/-- The `Ok(0)` arm of the decode loop: delete the compressed bytes
`[istart, iend)` with `del_range_2`, signal one after-change
notification `(istart, iend - istart, decompressed_bytes)`, run
`update_compositions(istart, istart)`, return `true`.  Point sits at
`iend` throughout the loop (it was set there before the loop and
insertions at the gap, which is at or after point, do not move it), so
`del_range_2` relocates it via `ptAfterDelete iend istart iend`. -/
def finishSuccess (istart iend k : Nat) (text : List Nat) :
    Bool × List Nat × Nat × List Event :=
  (true, deleteRange text istart iend, ptAfterDelete iend istart iend,
    [Event.afterChange istart (iend - istart) k,
     Event.updateCompositions istart istart])

/-- The `Err` arm of the decode loop: delete the partial output
`[iend, iend + decompressed_bytes)` with `del_range_2` (no hooks), run
`update_compositions(iend, iend)`, signal the balancing after-change
notification `(istart, iend - istart, iend - istart)`, and put point
at `min(old_pt, zv)`; return `false`. -/
def finishFailure (istart iend old_pt k : Nat) (text : List Nat) :
    Bool × List Nat × Nat × List Event :=
  let text2 := deleteRange text iend (iend + k)
  (false, text2, min old_pt (text2.length + 1),
    [Event.updateCompositions iend iend,
     Event.afterChange istart (iend - istart) (iend - istart)])

/-- The decode loop of `zlib_decompress_region`, driven by the read
script.  State: current buffer content `text` and the counter
`decompressed_bytes = k`.  An `Ok(n)` read with `n > 0` inserts the
chunk at the gap (position `iend + k`) and adds `n` to the counter;
`maybe_quit` is a no-op here (no quit is pending). -/
def decodeLoop (istart iend old_pt : Nat) :
    DecodeScript → List Nat → Nat → Bool × List Nat × Nat × List Event
  | DecodeScript.eof, text, k => finishSuccess istart iend k text
  | DecodeScript.err, text, k => finishFailure istart iend old_pt k text
  | DecodeScript.chunk c rest, text, k =>
    if c = [] then finishSuccess istart iend k text
    else decodeLoop istart iend old_pt rest (insertAt text (iend + k) c) (k + c.length)

/-- Diagnostic raised by `error!` for a multibyte buffer. -/
def unibyteMsg : String := "This function can be called only in unibyte buffers"

/-- Diagnostic raised by `validate_region` for out-of-range bounds. -/
def rangeErrMsg : String := "args-out-of-range"

/-- The Rust panic from `buffer[0]` on an empty slice in
`create_buffer_decoder`. -/
def panicMsg : String := "index out of bounds: buffer is empty"

instance : DecidableEq (Except String Bool) := fun x y =>
  match x, y with
  | Except.error a, Except.error b => decidable_of_iff (a = b) (by simp)
  | Except.error _, Except.ok _ => isFalse (by simp)
  | Except.ok _, Except.error _ => isFalse (by simp)
  | Except.ok a, Except.ok b => decidable_of_iff (a = b) (by simp)

/-- Result of a call: the outcome (`Except.error` models a Lisp signal
or panic aborting the call, `Except.ok` the returned boolean), the
buffer state afterwards, and the notification events emitted. -/
structure DecompressResult where
  outcome : Except String Bool
  buffer : Buffer
  events : List Event
deriving Repr, DecidableEq

/-- Modelled from the spec: `validate_region` lives in
`buffers.rs`, which is not part of the sources; per the spec it
"clamps/orders the bounds; fails if out of range".  It orders the two
positions and signals an error unless `1 ≤ start` and
`end ≤ zv = text.length + 1`. -/
def validate_region (buf : Buffer) (start stop : Nat) :
    Except String (Nat × Nat) :=
  let s := min start stop
  let e := max start stop
  if 1 ≤ s ∧ e ≤ buf.text.length + 1 then Except.ok (s, e)
  else Except.error rangeErrMsg

/-- `zlib_decompress_region(start, end)` on the current buffer, with
the flate2 reads abstracted by `script`.  Steps, in source order:
validate the region; signal an error in a multibyte buffer; return
`false` on an empty region; run `modify_text` (pre-change hooks), move
the gap and point to `iend`, borrow the compressed slice
`[istart, iend)`, build the decoder from its first byte, and run the
decode loop. -/
def zlib_decompress_region (buf : Buffer) (start stop : Nat)
    (script : DecodeScript) : DecompressResult :=
  match validate_region buf start stop with
  | Except.error e => ⟨Except.error e, buf, []⟩
  | Except.ok (istart, iend) =>
    if buf.multibyte then ⟨Except.error unibyteMsg, buf, []⟩
    else if istart = iend then ⟨Except.ok false, buf, []⟩
    else
      let old_pt := buf.pt
      let compressed := (buf.text.take (iend - 1)).drop (istart - 1)
      match create_buffer_decoder compressed with
      | none =>
        ⟨Except.error panicMsg, ⟨buf.text, iend, buf.multibyte⟩,
          [Event.modifyText istart iend]⟩
      | some _ =>
        let r := decodeLoop istart iend old_pt script buf.text 0
        ⟨Except.ok r.1, ⟨r.2.1, r.2.2.1, buf.multibyte⟩,
          Event.modifyText istart iend :: r.2.2.2⟩

/-- `zlib_available_p`: always `true`. -/
def zlib_available_p : Bool := true

/-! ### Loop invariant lemmas

Throughout the decode loop the buffer content has the shape
`T.take (iend - 1) ++ D ++ T.drop (iend - 1)` where `T` is the
pre-call content and `D` is the concatenation of the chunks inserted
so far, and the counter `decompressed_bytes` equals `D.length`. -/

lemma length_take_pre (T : List Nat) (iend : Nat) (h3 : iend - 1 ≤ T.length) :
    (T.take (iend - 1)).length = iend - 1 :=
  List.length_take_of_le h3

lemma insertAt_mid (T D c : List Nat) (iend : Nat)
    (h1 : 1 ≤ iend) (h3 : iend - 1 ≤ T.length) :
    insertAt (T.take (iend - 1) ++ D ++ T.drop (iend - 1)) (iend + D.length) c
      = T.take (iend - 1) ++ (D ++ c) ++ T.drop (iend - 1) := by
  have hA : (T.take (iend - 1)).length = iend - 1 := length_take_pre T iend h3
  have hlen : ((T.take (iend - 1)) ++ D).length = iend + D.length - 1 := by
    simp only [List.length_append, hA]
    omega
  unfold insertAt
  rw [show T.take (iend - 1) ++ D ++ T.drop (iend - 1)
        = (T.take (iend - 1) ++ D) ++ T.drop (iend - 1) from by
      simp [List.append_assoc]]
  rw [List.take_left' hlen, List.drop_left' hlen]
  simp [List.append_assoc]

lemma deleteRange_tail (T D : List Nat) (iend : Nat)
    (h1 : 1 ≤ iend) (h3 : iend - 1 ≤ T.length) :
    deleteRange (T.take (iend - 1) ++ D ++ T.drop (iend - 1)) iend (iend + D.length)
      = T := by
  have hA : (T.take (iend - 1)).length = iend - 1 := length_take_pre T iend h3
  have hlen : ((T.take (iend - 1)) ++ D).length = iend + D.length - 1 := by
    simp only [List.length_append, hA]
    omega
  unfold deleteRange
  rw [show T.take (iend - 1) ++ D ++ T.drop (iend - 1)
        = (T.take (iend - 1) ++ D) ++ T.drop (iend - 1) from by
      simp [List.append_assoc]]
  rw [List.drop_left' hlen]
  rw [List.take_append_of_le_length
    (show iend - 1 ≤ (T.take (iend - 1) ++ D).length from by
      rw [List.length_append, hA]; omega)]
  rw [List.take_left' hA]
  exact List.take_append_drop (iend - 1) T

lemma deleteRange_mid (T D : List Nat) (istart iend : Nat)
    (h0 : 1 ≤ istart) (h2 : istart ≤ iend) (h3 : iend - 1 ≤ T.length) :
    deleteRange (T.take (iend - 1) ++ D ++ T.drop (iend - 1)) istart iend
      = T.take (istart - 1) ++ D ++ T.drop (iend - 1) := by
  have hA : (T.take (iend - 1)).length = iend - 1 := length_take_pre T iend h3
  unfold deleteRange
  rw [show T.take (iend - 1) ++ D ++ T.drop (iend - 1)
        = (T.take (iend - 1)) ++ (D ++ T.drop (iend - 1)) from by
      simp [List.append_assoc]]
  rw [List.drop_left' hA]
  rw [List.take_append_of_le_length (by rw [hA]; omega)]
  rw [List.take_take, Nat.min_eq_left (by omega)]
  simp [List.append_assoc]

lemma ptAfterDelete_end (istart iend : Nat) (h2 : istart ≤ iend) :
    ptAfterDelete iend istart iend = istart := by
  unfold ptAfterDelete
  rw [if_pos (le_refl iend)]
  omega

/-- Runs of the decode loop whose script ends in a clean `Ok(0)`:
starting from content with `D` already inserted at the gap and the
counter at `D.length`, the loop returns `true`, the compressed bytes
`[istart, iend)` replaced by the full output `D ++ B`, point at
`istart`, and the success-path notification trace. -/
lemma decodeLoop_eq_ok (istart iend old_pt : Nat) (T : List Nat)
    (h0 : 1 ≤ istart) (h2 : istart ≤ iend) (h3 : iend - 1 ≤ T.length)
    (s : DecodeScript) :
    ∀ (D B : List Nat), scriptOutput s = some B →
    decodeLoop istart iend old_pt s
        (T.take (iend - 1) ++ D ++ T.drop (iend - 1)) D.length
      = (true, T.take (istart - 1) ++ (D ++ B) ++ T.drop (iend - 1), istart,
         [Event.afterChange istart (iend - istart) (D.length + B.length),
          Event.updateCompositions istart istart]) := by
  have h1 : 1 ≤ iend := le_trans h0 h2
  induction s with
  | eof =>
    intro D B hB
    simp only [scriptOutput, Option.some.injEq] at hB
    subst hB
    simp only [decodeLoop, finishSuccess]
    rw [deleteRange_mid T D istart iend h0 h2 h3, ptAfterDelete_end istart iend h2]
    simp
  | err =>
    intro D B hB
    simp [scriptOutput] at hB
  | chunk c rest ih =>
    intro D B hB
    by_cases hc : c = []
    · subst hc
      have hB2 : B = [] := by simpa [scriptOutput] using hB.symm
      subst hB2
      simp only [decodeLoop]
      rw [if_pos trivial]
      simp only [finishSuccess]
      rw [deleteRange_mid T D istart iend h0 h2 h3, ptAfterDelete_end istart iend h2]
      simp
    · simp only [scriptOutput, if_neg hc, Option.map_eq_some'] at hB
      obtain ⟨B', hB', hBeq⟩ := hB
      subst hBeq
      simp only [decodeLoop, if_neg hc]
      rw [insertAt_mid T D c iend h1 h3]
      rw [show D.length + c.length = (D ++ c).length from (List.length_append D c).symm]
      rw [ih (D ++ c) B' hB']
      simp [List.append_assoc]
      omega

/-- Runs of the decode loop whose script ends in a decode error: the
loop returns `false`, the content is restored to the pre-call `T`,
point is `min old_pt (T.length + 1)`, and the failure-path
notification trace is emitted. -/
lemma decodeLoop_eq_err (istart iend old_pt : Nat) (T : List Nat)
    (h0 : 1 ≤ istart) (h2 : istart ≤ iend) (h3 : iend - 1 ≤ T.length)
    (s : DecodeScript) :
    ∀ (D : List Nat), scriptOutput s = none →
    decodeLoop istart iend old_pt s
        (T.take (iend - 1) ++ D ++ T.drop (iend - 1)) D.length
      = (false, T, min old_pt (T.length + 1),
         [Event.updateCompositions iend iend,
          Event.afterChange istart (iend - istart) (iend - istart)]) := by
  have h1 : 1 ≤ iend := le_trans h0 h2
  induction s with
  | eof =>
    intro D hB
    simp [scriptOutput] at hB
  | err =>
    intro D hB
    simp only [decodeLoop, finishFailure]
    rw [deleteRange_tail T D iend h1 h3]
  | chunk c rest ih =>
    intro D hB
    by_cases hc : c = []
    · simp [scriptOutput, hc] at hB
    · simp only [scriptOutput, if_neg hc, Option.map_eq_none'] at hB
      simp only [decodeLoop, if_neg hc]
      rw [insertAt_mid T D c iend h1 h3]
      rw [show D.length + c.length = (D ++ c).length from (List.length_append D c).symm]
      exact ih (D ++ c) hB

/-! ### Reduction of the top-level call -/

lemma validate_region_eq_ok (buf : Buffer) (istart iend : Nat)
    (h0 : 1 ≤ istart) (h2 : istart ≤ iend) (h3 : iend ≤ buf.text.length + 1) :
    validate_region buf istart iend = Except.ok (istart, iend) := by
  unfold validate_region
  rw [min_eq_left h2, max_eq_right h2]
  rw [if_pos ⟨h0, h3⟩]

lemma create_buffer_decoder_isSome (buffer : List Nat) (h : buffer ≠ []) :
    ∃ k, create_buffer_decoder buffer = some k := by
  cases buffer with
  | nil => exact absurd rfl h
  | cons b t =>
    simp only [create_buffer_decoder]
    split_ifs <;> exact ⟨_, rfl⟩

lemma compressed_slice_ne_nil (T : List Nat) (istart iend : Nat)
    (h0 : 1 ≤ istart) (h2 : istart < iend) (h3 : iend ≤ T.length + 1) :
    (T.take (iend - 1)).drop (istart - 1) ≠ [] := by
  intro hnil
  have hlen : ((T.take (iend - 1)).drop (istart - 1)).length = 0 := by
    rw [hnil]; rfl
  rw [List.length_drop, List.length_take] at hlen
  omega

/-- On a validated, non-empty region of a unibyte buffer, the call
reduces to the decode loop's outcome wrapped with the pre-change
notification. -/
lemma zlib_decompress_region_run (buf : Buffer) (istart iend : Nat)
    (s : DecodeScript) (hmb : buf.multibyte = false)
    (h0 : 1 ≤ istart) (h2 : istart < iend) (h3 : iend ≤ buf.text.length + 1) :
    zlib_decompress_region buf istart iend s =
      ⟨Except.ok (decodeLoop istart iend buf.pt s buf.text 0).1,
        ⟨(decodeLoop istart iend buf.pt s buf.text 0).2.1,
         (decodeLoop istart iend buf.pt s buf.text 0).2.2.1, false⟩,
        Event.modifyText istart iend
          :: (decodeLoop istart iend buf.pt s buf.text 0).2.2.2⟩ := by
  obtain ⟨k, hk⟩ := create_buffer_decoder_isSome
    ((buf.text.take (iend - 1)).drop (istart - 1))
    (compressed_slice_ne_nil buf.text istart iend h0 h2 h3)
  simp [zlib_decompress_region,
    validate_region_eq_ok buf istart iend h0 (le_of_lt h2) h3,
    hmb, Nat.ne_of_lt h2, hk]

/-- The decode loop started on the pre-call content `buf.text` with a
cleanly terminating script. -/
lemma decodeLoop_initial_ok (istart iend old_pt : Nat) (T B : List Nat)
    (s : DecodeScript) (h0 : 1 ≤ istart) (h2 : istart ≤ iend)
    (h3 : iend ≤ T.length + 1) (hs : scriptOutput s = some B) :
    decodeLoop istart iend old_pt s T 0
      = (true, T.take (istart - 1) ++ B ++ T.drop (iend - 1), istart,
         [Event.afterChange istart (iend - istart) B.length,
          Event.updateCompositions istart istart]) := by
  have h := decodeLoop_eq_ok istart iend old_pt T h0 h2 (by omega) s [] B hs
  simpa using h

/-- The decode loop started on the pre-call content `buf.text` with a
script ending in a decode error. -/
lemma decodeLoop_initial_err (istart iend old_pt : Nat) (T : List Nat)
    (s : DecodeScript) (h0 : 1 ≤ istart) (h2 : istart ≤ iend)
    (h3 : iend ≤ T.length + 1) (hs : scriptOutput s = none) :
    decodeLoop istart iend old_pt s T 0
      = (false, T, min old_pt (T.length + 1),
         [Event.updateCompositions iend iend,
          Event.afterChange istart (iend - istart) (iend - istart)]) := by
  have h := decodeLoop_eq_err istart iend old_pt T h0 h2 (by omega) s [] hs
  simpa using h

/-! ### The claims -/

/-- C1: Atomicity on decode failure.  For every unibyte buffer, valid
region `[istart, iend)` and decoder read script ending in a decode
error, `zlib_decompress_region` returns `false` (a soft failure, not
a signal) and the buffer content afterwards is byte-identical to the
content before the call: the compressed bytes are untouched and every
byte of partial decompressed output has been deleted. -/
theorem c1_atomicity_on_failure (buf : Buffer) (istart iend : Nat)
    (s : DecodeScript) (hmb : buf.multibyte = false)
    (h0 : 1 ≤ istart) (h2 : istart ≤ iend) (h3 : iend ≤ buf.text.length + 1)
    (hs : scriptOutput s = none) :
    (zlib_decompress_region buf istart iend s).outcome = Except.ok false ∧
    (zlib_decompress_region buf istart iend s).buffer.text = buf.text := by
  rcases eq_or_lt_of_le h2 with heq | hlt
  · subst heq
    simp [zlib_decompress_region,
      validate_region_eq_ok buf istart istart h0 le_rfl h3, hmb]
  · rw [zlib_decompress_region_run buf istart iend s hmb h0 hlt h3]
    rw [decodeLoop_initial_err istart iend buf.pt buf.text s h0 (le_of_lt hlt) h3 hs]
    exact ⟨rfl, rfl⟩

/-- C2: Round-trip.  The flate2 decoder is external to the repository;
per the spec's Compression Library contract, reading a validly
compressed stream of `B` yields exactly the bytes of `B` and then a
clean end of stream, captured by `scriptOutput s = some B`.  Under
that contract the operation succeeds and the region's content becomes
exactly `B`, the original compressed bytes `[istart, iend)` removed. -/
theorem c2_round_trip (buf : Buffer) (istart iend : Nat) (B : List Nat)
    (s : DecodeScript) (hmb : buf.multibyte = false)
    (h0 : 1 ≤ istart) (h2 : istart < iend) (h3 : iend ≤ buf.text.length + 1)
    (hs : scriptOutput s = some B) :
    (zlib_decompress_region buf istart iend s).outcome = Except.ok true ∧
    (zlib_decompress_region buf istart iend s).buffer.text
      = buf.text.take (istart - 1) ++ B ++ buf.text.drop (iend - 1) := by
  rw [zlib_decompress_region_run buf istart iend s hmb h0 h2 h3]
  rw [decodeLoop_initial_ok istart iend buf.pt buf.text B s h0 (le_of_lt h2) h3 hs]
  exact ⟨rfl, rfl⟩

/-- C3: Format detection.  `create_buffer_decoder` selects the decoder
from the first byte of the region alone: `0x78` picks the zlib
decoder, `0x1F` the gzip decoder, and any other leading byte the
raw-deflate decoder.  (In `zlib_decompress_region` the decoder is
built once, before the decode loop, and never rebuilt.) -/
theorem c3_format_detection (b : Nat) (rest : List Nat) :
    create_buffer_decoder (b :: rest)
      = some (if b = 0x78 then DecoderKind.zlibStream
              else if b = 0x1F then DecoderKind.gzipStream
              else DecoderKind.rawDeflateStream) := by
  simp only [create_buffer_decoder]
  split_ifs <;> rfl

/-- C4: Empty region is a defined no-op failure.  For every valid
position `p` of a unibyte buffer, `zlib_decompress_region p p` returns
`false` (not a signal), performs no mutation, and emits no
notification: the whole result is the untouched pre-call state. -/
theorem c4_empty_region_noop (buf : Buffer) (p : Nat) (s : DecodeScript)
    (hmb : buf.multibyte = false) (h0 : 1 ≤ p)
    (h3 : p ≤ buf.text.length + 1) :
    zlib_decompress_region buf p p s = ⟨Except.ok false, buf, []⟩ := by
  simp [zlib_decompress_region, validate_region_eq_ok buf p p h0 le_rfl h3, hmb]

/-- C5: Success path.  On clean end of stream the operation deletes
exactly the compressed range `[istart, iend)` (content becomes the
pre-call bytes with `[istart, iend)` replaced by the decompressed
output `B`), emits exactly one post-change notification with deleted
length `iend - istart` and inserted length `B.length`, runs the
structure-refresh hook (`update_compositions`), and returns success. -/
theorem c5_success_path (buf : Buffer) (istart iend : Nat) (B : List Nat)
    (s : DecodeScript) (hmb : buf.multibyte = false)
    (h0 : 1 ≤ istart) (h2 : istart < iend) (h3 : iend ≤ buf.text.length + 1)
    (hs : scriptOutput s = some B) :
    zlib_decompress_region buf istart iend s =
      ⟨Except.ok true,
       ⟨buf.text.take (istart - 1) ++ B ++ buf.text.drop (iend - 1), istart, false⟩,
       [Event.modifyText istart iend,
        Event.afterChange istart (iend - istart) B.length,
        Event.updateCompositions istart istart]⟩ := by
  rw [zlib_decompress_region_run buf istart iend s hmb h0 h2 h3]
  rw [decodeLoop_initial_ok istart iend buf.pt buf.text B s h0 (le_of_lt h2) h3 hs]

/-- C6: Failure-path notifications.  On a decode error the corrective
deletion of the partial output emits no per-edit notification; the
whole trace is the pre-change notification, the structure-refresh
hook, and exactly one balancing post-change notification for
`[istart, iend)` with deleted length and inserted length both equal to
`iend - istart` (zero net change). -/
theorem c6_failure_notifications (buf : Buffer) (istart iend : Nat)
    (s : DecodeScript) (hmb : buf.multibyte = false)
    (h0 : 1 ≤ istart) (h2 : istart < iend) (h3 : iend ≤ buf.text.length + 1)
    (hs : scriptOutput s = none) :
    (zlib_decompress_region buf istart iend s).events =
      [Event.modifyText istart iend,
       Event.updateCompositions iend iend,
       Event.afterChange istart (iend - istart) (iend - istart)] := by
  rw [zlib_decompress_region_run buf istart iend s hmb h0 h2 h3]
  rw [decodeLoop_initial_err istart iend buf.pt buf.text s h0 (le_of_lt h2) h3 hs]

/-- C7: Cursor restoration on failure.  After a failing call that took
the decode-error path, point is `min p zv` where `p` was point before
the call and `zv` is the container end position after rollback
(`text.length + 1`): point is back at `p` whenever the rolled-back
container still reaches `p`, and clamped to the end otherwise. -/
theorem c7_cursor_restoration (buf : Buffer) (istart iend : Nat)
    (s : DecodeScript) (hmb : buf.multibyte = false)
    (h0 : 1 ≤ istart) (h2 : istart < iend) (h3 : iend ≤ buf.text.length + 1)
    (hs : scriptOutput s = none) :
    (zlib_decompress_region buf istart iend s).buffer.pt
      = min buf.pt
          ((zlib_decompress_region buf istart iend s).buffer.text.length + 1) := by
  rw [zlib_decompress_region_run buf istart iend s hmb h0 h2 h3]
  rw [decodeLoop_initial_err istart iend buf.pt buf.text s h0 (le_of_lt h2) h3 hs]

/-- C8: Wide-character precondition fails loudly.  Any call on a
multibyte buffer halts with a diagnostic error (a Lisp signal, never
the soft `false` return) and performs no mutation: the buffer is
untouched and no notification has been emitted. -/
theorem c8_multibyte_fails_loudly (buf : Buffer) (start stop : Nat)
    (s : DecodeScript) (hmb : buf.multibyte = true) :
    (∃ msg, (zlib_decompress_region buf start stop s).outcome
        = Except.error msg) ∧
    (zlib_decompress_region buf start stop s).buffer = buf ∧
    (zlib_decompress_region buf start stop s).events = [] := by
  unfold zlib_decompress_region
  cases hv : validate_region buf start stop with
  | error e => exact ⟨⟨e, rfl⟩, rfl, rfl⟩
  | ok p =>
    obtain ⟨istart, iend⟩ := p
    simp [hmb]

/-- C9: Rollback-sufficiency invariant of the decode loop.  At every
iteration the content has the shape `pre ++ D ++ post` around position
`iend`, where `D` is everything inserted since the operation began and
the counter equals `D.length`: the shape holds initially with `D`
empty, one more `insert_from_gap` of a chunk `c` at the gap position
`iend + D.length` extends `D` to `D ++ c`, and the failure-path
`del_range_2` of exactly `[iend, iend + D.length)` removes precisely
the inserted output and nothing else, restoring the pre-call bytes. -/
theorem c9_rollback_invariant (T D c : List Nat) (iend : Nat)
    (h1 : 1 ≤ iend) (h3 : iend - 1 ≤ T.length) :
    T.take (iend - 1) ++ ([] : List Nat) ++ T.drop (iend - 1) = T
    ∧ insertAt (T.take (iend - 1) ++ D ++ T.drop (iend - 1)) (iend + D.length) c
        = T.take (iend - 1) ++ (D ++ c) ++ T.drop (iend - 1)
    ∧ deleteRange (T.take (iend - 1) ++ D ++ T.drop (iend - 1)) iend
        (iend + D.length) = T :=
  ⟨by simp, insertAt_mid T D c iend h1 h3, deleteRange_tail T D iend h1 h3⟩

lemma zlib_no_panic (buf : Buffer) (start stop : Nat) (s : DecodeScript) :
    ¬ (zlib_decompress_region buf start stop s).outcome
        = Except.error panicMsg := by
  unfold zlib_decompress_region
  cases hv : validate_region buf start stop with
  | error e =>
    have he : e = rangeErrMsg := by
      unfold validate_region at hv
      dsimp only at hv
      split_ifs at hv
      simpa using hv.symm
    subst he
    intro h
    simp only [Except.error.injEq] at h
    exact absurd h (by decide)
  | ok p =>
    obtain ⟨istart, iend⟩ := p
    have hbounds : 1 ≤ istart ∧ istart ≤ iend ∧ iend ≤ buf.text.length + 1 := by
      unfold validate_region at hv
      dsimp only at hv
      split_ifs at hv with hcond
      · simp only [Except.ok.injEq, Prod.mk.injEq] at hv
        refine ⟨?_, ?_, ?_⟩
        · rw [← hv.1]; exact hcond.1
        · rw [← hv.1, ← hv.2]; exact min_le_max
        · rw [← hv.2]; exact hcond.2
    by_cases hmb : buf.multibyte
    · simp only [hmb, if_true]
      intro h
      simp only [Except.error.injEq, unibyteMsg, panicMsg] at h
      exact absurd h (by decide)
    · by_cases hie : istart = iend
      · simp [hmb, hie]
      · have hlt : istart < iend := lt_of_le_of_ne hbounds.2.1 hie
        obtain ⟨k, hk⟩ := create_buffer_decoder_isSome
          ((buf.text.take (iend - 1)).drop (istart - 1))
          (compressed_slice_ne_nil buf.text istart iend hbounds.1 hlt hbounds.2.2)
        simp [hmb, hie, hk]

/-- C10: First-byte read is in bounds.  `create_buffer_decoder`
unconditionally indexes `buffer[0]`, but its only call site is reached
after region validation and the empty-region guard, so the borrowed
compressed slice is never empty and the indexing panic is unreachable:
for all inputs, the call's outcome is never the panic. -/
theorem c10_first_byte_in_bounds (buf : Buffer) (start stop : Nat)
    (s : DecodeScript) :
    ((zlib_decompress_region buf start stop s).outcome
        = Except.error panicMsg) = False :=
  eq_false (zlib_no_panic buf start stop s)


/-! ### Witnesses -/

theorem c1_atomicity_on_failure_witness :
    (zlib_decompress_region ⟨[0x78, 9, 9], 2, false⟩ 1 4
        (DecodeScript.chunk [65] DecodeScript.err)).outcome = Except.ok false ∧
    (zlib_decompress_region ⟨[0x78, 9, 9], 2, false⟩ 1 4
        (DecodeScript.chunk [65] DecodeScript.err)).buffer.text = [0x78, 9, 9] :=
  c1_atomicity_on_failure ⟨[0x78, 9, 9], 2, false⟩ 1 4
    (DecodeScript.chunk [65] DecodeScript.err) rfl (by decide) (by decide)
    (by decide) rfl

theorem c2_round_trip_witness :
    (zlib_decompress_region ⟨[0x78, 9, 9], 2, false⟩ 1 4
        (DecodeScript.chunk [65] (DecodeScript.chunk [66] DecodeScript.eof))).outcome
      = Except.ok true ∧
    (zlib_decompress_region ⟨[0x78, 9, 9], 2, false⟩ 1 4
        (DecodeScript.chunk [65] (DecodeScript.chunk [66] DecodeScript.eof))).buffer.text
      = [65, 66] :=
  c2_round_trip ⟨[0x78, 9, 9], 2, false⟩ 1 4 [65, 66]
    (DecodeScript.chunk [65] (DecodeScript.chunk [66] DecodeScript.eof))
    rfl (by decide) (by decide) (by decide) rfl

theorem c4_empty_region_noop_witness :
    zlib_decompress_region ⟨[0x78, 9, 9], 2, false⟩ 2 2 DecodeScript.eof
      = ⟨Except.ok false, ⟨[0x78, 9, 9], 2, false⟩, []⟩ :=
  c4_empty_region_noop ⟨[0x78, 9, 9], 2, false⟩ 2 DecodeScript.eof
    rfl (by decide) (by decide)

theorem c5_success_path_witness :
    zlib_decompress_region ⟨[0x78, 9, 9], 2, false⟩ 1 4
        (DecodeScript.chunk [65] (DecodeScript.chunk [66] DecodeScript.eof))
      = ⟨Except.ok true, ⟨[65, 66], 1, false⟩,
         [Event.modifyText 1 4, Event.afterChange 1 3 2,
          Event.updateCompositions 1 1]⟩ :=
  c5_success_path ⟨[0x78, 9, 9], 2, false⟩ 1 4 [65, 66]
    (DecodeScript.chunk [65] (DecodeScript.chunk [66] DecodeScript.eof))
    rfl (by decide) (by decide) (by decide) rfl

theorem c6_failure_notifications_witness :
    (zlib_decompress_region ⟨[0x78, 9, 9], 2, false⟩ 1 4
        (DecodeScript.chunk [65] DecodeScript.err)).events
      = [Event.modifyText 1 4, Event.updateCompositions 4 4,
         Event.afterChange 1 3 3] :=
  c6_failure_notifications ⟨[0x78, 9, 9], 2, false⟩ 1 4
    (DecodeScript.chunk [65] DecodeScript.err) rfl (by decide) (by decide)
    (by decide) rfl

theorem c7_cursor_restoration_witness :
    (zlib_decompress_region ⟨[0x78, 9, 9], 2, false⟩ 1 4
        (DecodeScript.chunk [65] DecodeScript.err)).buffer.pt
      = min 2
          ((zlib_decompress_region ⟨[0x78, 9, 9], 2, false⟩ 1 4
              (DecodeScript.chunk [65] DecodeScript.err)).buffer.text.length + 1) :=
  c7_cursor_restoration ⟨[0x78, 9, 9], 2, false⟩ 1 4
    (DecodeScript.chunk [65] DecodeScript.err) rfl (by decide) (by decide)
    (by decide) rfl

theorem c8_multibyte_fails_loudly_witness :
    (∃ msg, (zlib_decompress_region ⟨[1], 1, true⟩ 1 1 DecodeScript.eof).outcome
        = Except.error msg) ∧
    (zlib_decompress_region ⟨[1], 1, true⟩ 1 1 DecodeScript.eof).buffer
      = ⟨[1], 1, true⟩ ∧
    (zlib_decompress_region ⟨[1], 1, true⟩ 1 1 DecodeScript.eof).events = [] :=
  c8_multibyte_fails_loudly ⟨[1], 1, true⟩ 1 1 DecodeScript.eof rfl

theorem c9_rollback_invariant_witness :
    [1, 2, 3].take (2 - 1) ++ ([] : List Nat) ++ [1, 2, 3].drop (2 - 1) = [1, 2, 3]
    ∧ insertAt ([1, 2, 3].take (2 - 1) ++ [4] ++ [1, 2, 3].drop (2 - 1))
        (2 + [4].length) [5]
        = [1, 2, 3].take (2 - 1) ++ ([4] ++ [5]) ++ [1, 2, 3].drop (2 - 1)
    ∧ deleteRange ([1, 2, 3].take (2 - 1) ++ [4] ++ [1, 2, 3].drop (2 - 1)) 2
        (2 + [4].length) = [1, 2, 3] :=
  c9_rollback_invariant [1, 2, 3] [4] [5] 2 (by decide) (by decide)

end Remacs
